import Mathlib

/-!
# DropSight: the monthly chart data pipeline (`Monthly.js`)

A shallow embedding of `fetchMonthlyData`, `getAvailableMonths` and the month ordering of
`fetchAvailableMonths`, followed by theorems about them.

Modelling conventions.

* A JavaScript exception (or a rejected promise of an `async` function) is the `error` case
  of `Except JSError`.
* Detection counts are JavaScript numbers holding integers. A number is written as the
  integer it holds, and `+=` is `jsAdd`: the exact sum rounded to the nearest double, ties to
  even, so that sums are exact up to `2 ^ 53` and rounded beyond. A sum that reaches
  `2 ^ 1024` is `Infinity` in JavaScript; the model keeps the rounded integer there, and no
  theorem below tells the two apart (each bounds the totals by `2 ^ 53`, or speaks only of
  the sign of a total and of its being zero). A stored count is itself a JavaScript number,
  so an integer that a double holds; every integer up to `2 ^ 53` is one.
* `date.toLocaleString("default", { month: "long" })` names the month in the default locale
  of the runtime, which is a parameter `loc` of the model (the twelve long month names); an
  invalid date yields the text `Invalid Date` in every locale.
* A Firestore snapshot is the list of the data of its documents, in iteration order.
-/

namespace DropSight

/-! ## Values and errors -/

/-- Exceptions raised by the modelled code. -/
inductive JSError
  | typeError
  | syntaxError
  | storeError
  deriving DecidableEq

instance {ε α : Type} [DecidableEq ε] [DecidableEq α] : DecidableEq (Except ε α) :=
  fun x y =>
    match x, y with
    | Except.ok a, Except.ok b =>
      if h : a = b then isTrue (by rw [h]) else isFalse (fun h1 => h (Except.ok.inj h1))
    | Except.error a, Except.error b =>
      if h : a = b then isTrue (by rw [h]) else isFalse (fun h1 => h (Except.error.inj h1))
    | Except.ok _, Except.error _ => isFalse (fun h1 => Except.noConfusion h1)
    | Except.error _, Except.ok _ => isFalse (fun h1 => Except.noConfusion h1)

/-- A JavaScript `Date`: either a valid instant, of which only the local month (0 to 11)
matters here, or the invalid date. -/
inductive JSDate
  | valid (month : Fin 12)
  | invalid
  deriving DecidableEq

/-- The `date` field of a stored document. `absent` is `undefined` or `null`, on which
reading `.toDate` throws; `timestamp` is a Firestore timestamp, whose `toDate()` is a valid
date in the given month; `raw` is any other value (typically a string), together with the
date that `new Date(value)` constructs from it. -/
inductive DateField
  | absent
  | timestamp (month : Fin 12)
  | raw (asDate : JSDate)
  deriving DecidableEq

/-- The data of one document of `detectedDroppings`: its `date` field and its
`detectionsCount` object (`none` when the field is missing), an association from key to
count. -/
structure DocData where
  date : DateField
  detectionsCount : Option (List (String × Int))
  deriving DecidableEq

/-- One element of `rawData`. -/
structure Row where
  Healthy : Int
  Salmonella : Int
  Newcastle : Int
  Coccidiosis : Int
  deriving DecidableEq

/-! ## JavaScript number addition on integers -/

/-- The number of halvings that bring `n` below `2 ^ 53`: the binary exponent of the spacing
between the doubles around `n`. The first argument bounds the recursion. -/
def excessBits : Nat → Nat → Nat
  | 0, _ => 0
  | fuel + 1, n => if n < 2 ^ 53 then 0 else excessBits fuel (n / 2) + 1

/-- The double nearest to an integer, ties to the even significand: integers up to `2 ^ 53`
in magnitude are doubles; beyond, the doubles are the multiples of `2 ^ e`. -/
def roundDouble (x : Int) : Int :=
  if x.natAbs ≤ 2 ^ 53 then x
  else
    let n := x.natAbs
    let e := excessBits n n
    let q := n / 2 ^ e
    let r := n % 2 ^ e
    let half := 2 ^ (e - 1)
    let q1 := if half < r ∨ (r = half ∧ q % 2 = 1) then q + 1 else q
    x.sign * ((q1 * 2 ^ e : Nat) : Int)

/-- Models `a + b` on integer-valued JavaScript numbers: the exact sum, rounded. -/
def jsAdd (a b : Int) : Int :=
  roundDouble (a + b)

/-! ## Month names -/

/-- The constant `months`. -/
def months : List String :=
  ["January", "February", "March", "April", "May", "June", "July", "August",
   "September", "October", "November", "December"]

/-- The long month names of the default locale of the runtime, by month number. -/
abbrev Locale := Fin 12 → String

/-- The long month names of an English locale. -/
def englishLocale : Locale :=
  fun m => months.getD m.val ""

/-- The long month names of the locale `fr-FR`. -/
def frenchLocale : Locale :=
  fun m =>
    ["janvier", "février", "mars", "avril", "mai", "juin", "juillet", "août",
     "septembre", "octobre", "novembre", "décembre"].getD m.val ""

/-- Models `date.toLocaleString("default", { month: "long" })` under the locale `loc`. -/
def toLocaleMonth (loc : Locale) : JSDate → String
  | JSDate.valid m => loc m
  | JSDate.invalid => "Invalid Date"

/-- Models `data.date.toDate ? data.date.toDate() : new Date(data.date)`. -/
def resolveDate : DateField → Except JSError JSDate
  | DateField.absent => Except.error JSError.typeError
  | DateField.timestamp m => Except.ok (JSDate.valid m)
  | DateField.raw d => Except.ok d

/-- Models `detections[key] || 0` on an integer-valued count object. -/
def countOrZero (detections : List (String × Int)) (key : String) : Int :=
  match detections.lookup key with
  | none => 0
  | some v => if v = 0 then 0 else v

/-! ## `fetchMonthlyData`, from the snapshot on -/

/-- The body of the `snapshot.forEach` callback of `fetchMonthlyData`. -/
def pushIfMonth (loc : Locale) (month : String) (rawData : List Row) (data : DocData) :
    Except JSError (List Row) :=
  match resolveDate data.date with
  | Except.error e => Except.error e
  | Except.ok date =>
    let detections := data.detectionsCount.getD []
    let monthName := toLocaleMonth loc date
    if monthName = month then
      Except.ok (rawData ++ [{ Healthy := countOrZero detections "Healthy",
                               Salmonella := countOrZero detections "Salmonella-like",
                               Newcastle := countOrZero detections "NCD-like",
                               Coccidiosis := countOrZero detections "Coccidiosis-like" }])
    else
      Except.ok rawData

/-- The loop `snapshot.forEach(...)` of `fetchMonthlyData`, started from `rawData`. -/
def collectRows (loc : Locale) (month : String) :
    List Row → List DocData → Except JSError (List Row)
  | rawData, [] => Except.ok rawData
  | rawData, data :: rest =>
    match pushIfMonth loc month rawData data with
    | Except.error e => Except.error e
    | Except.ok rawData1 => collectRows loc month rawData1 rest

/-- The reducer passed to `rawData.reduce`: four `+=` on JavaScript numbers. -/
def addRow (acc curr : Row) : Row :=
  { Healthy := jsAdd acc.Healthy curr.Healthy,
    Salmonella := jsAdd acc.Salmonella curr.Salmonella,
    Newcastle := jsAdd acc.Newcastle curr.Newcastle,
    Coccidiosis := jsAdd acc.Coccidiosis curr.Coccidiosis }

/-- The initial accumulator of `rawData.reduce`. -/
def zeroRow : Row :=
  { Healthy := 0, Salmonella := 0, Newcastle := 0, Coccidiosis := 0 }

/-- The tail of `fetchMonthlyData`: the all-zero test and the four labelled totals. -/
def toChartData (aggregatedData : Row) : List (String × Int) :=
  if aggregatedData.Healthy = 0 ∧ aggregatedData.Salmonella = 0 ∧
      aggregatedData.Newcastle = 0 ∧ aggregatedData.Coccidiosis = 0 then
    []
  else
    [("Healthy", aggregatedData.Healthy),
     ("Salmonella", aggregatedData.Salmonella),
     ("Newcastle", aggregatedData.Newcastle),
     ("Coccidiosis", aggregatedData.Coccidiosis)]

/-- The part of `fetchMonthlyData` that follows the store query: filter the snapshot by
month, reduce, and build the chart data. -/
def aggregate (loc : Locale) (records : List DocData) (month : String) :
    Except JSError (List (String × Int)) :=
  match collectRows loc month [] records with
  | Except.error e => Except.error e
  | Except.ok rawData => Except.ok (toChartData (rawData.foldl addRow zeroRow))

/-! ## `getAvailableMonths`, from the snapshot on -/

/-- Models `Set.prototype.add` on a set kept in insertion order. -/
def setAdd (s : List String) (x : String) : List String :=
  if x ∈ s then s else s ++ [x]

/-- The loop `snapshot.forEach(...)` of `getAvailableMonths`, started from `monthsWithData`. -/
def collectMonths (loc : Locale) : List String → List DocData → Except JSError (List String)
  | monthsWithData, [] => Except.ok monthsWithData
  | monthsWithData, data :: rest =>
    match resolveDate data.date with
    | Except.error e => Except.error e
    | Except.ok date => collectMonths loc (setAdd monthsWithData (toLocaleMonth loc date)) rest

/-- The part of `getAvailableMonths` that follows the store query; the result is the spread
`[...monthsWithData]`, in first-occurrence order. -/
def availableMonths (loc : Locale) (records : List DocData) : Except JSError (List String) :=
  collectMonths loc [] records

/-! ## The month ordering of `fetchAvailableMonths` -/

/-- Models `Array.prototype.indexOf` on strings, scanning from position `i`. -/
def indexOfFrom (a : String) : List String → Nat → Int
  | [], _ => -1
  | x :: rest, i => if x = a then (i : Int) else indexOfFrom a rest (i + 1)

/-- Models `months.indexOf(a)`. -/
def monthIndex (a : String) : Int :=
  indexOfFrom a months 0

/-- The comparator `(a, b) => months.indexOf(a) - months.indexOf(b)`. -/
def monthCompare (a b : String) : Int :=
  monthIndex a - monthIndex b

/-- The order induced by the comparator: `a` may stay before `b`. -/
def calendarLE (a b : String) : Prop :=
  monthCompare a b ≤ 0

instance : DecidableRel calendarLE := fun a b =>
  inferInstanceAs (Decidable (monthCompare a b ≤ 0))

instance : IsTotal String calendarLE :=
  ⟨fun a b => by unfold calendarLE monthCompare; omega⟩

instance : IsTrans String calendarLE :=
  ⟨fun a b c => by unfold calendarLE monthCompare; omega⟩

/-- Strictly earlier in the calendar, by position in `months`. -/
def calendarLT (a b : String) : Prop :=
  monthIndex a < monthIndex b

instance : IsAntisymm String calendarLT :=
  ⟨fun a b h1 h2 => by unfold calendarLT at h1 h2; omega⟩

/-- Models `monthsWithData.sort(comparator)`: a stable sort by the comparator. -/
def sortMonths (monthsWithData : List String) : List String :=
  monthsWithData.insertionSort calendarLE

/-- Models the first two statements of `fetchAvailableMonths`: await the month list and sort
it with the comparator. -/
def orderedMonths (loc : Locale) (records : List DocData) : Except JSError (List String) :=
  match availableMonths loc records with
  | Except.error e => Except.error e
  | Except.ok monthsWithData => Except.ok (sortMonths monthsWithData)

/-! ## The entry points: session identity and store query -/

/-- A value produced by `JSON.parse`. Numbers are kept as integers, which is enough for
their truthiness. -/
inductive Json
  | null
  | bool (b : Bool)
  | num (n : Int)
  | str (s : String)
  | arr (items : List Json)
  | obj (fields : List (String × Json))

/-- The collaborators of the entry points: the item stored under `loggedInUser` in
`localStorage` (`none` when `getItem` returns `null`), `JSON.parse`, the store query
`getDocs(query(collection(db, "detectedDroppings"), where("UserID", "==", userId)))`, and
the default locale of the runtime. -/
structure Env where
  loggedInUser : Option String
  jsonParse : String → Except JSError Json
  getDocs : Json → Except JSError (List DocData)
  locale : Locale

/-- Models `parsedUser?.UserID`; `none` is `undefined`. -/
def userIDOf : Json → Option Json
  | Json.obj fields => fields.lookup "UserID"
  | _ => none

/-- JavaScript truthiness of a parsed value. -/
def truthy : Json → Bool
  | Json.null => false
  | Json.bool b => b
  | Json.num n => n ≠ 0
  | Json.str s => s ≠ ""
  | Json.arr _ => true
  | Json.obj _ => true

/-- The first three statements of both entry points: read the stored user, parse it, and
take its `UserID`. -/
def sessionUserId (env : Env) : Except JSError (Option Json) :=
  match env.loggedInUser with
  | none => Except.ok none
  | some storedUser =>
    if storedUser = "" then Except.ok none
    else
      match env.jsonParse storedUser with
      | Except.error e => Except.error e
      | Except.ok parsedUser => Except.ok (userIDOf parsedUser)

/-- The outcome of running an entry point: the user identifiers the store was queried with,
in order, and the value or error the call settles with. -/
structure Run (α : Type) where
  queried : List Json
  result : Except JSError α

/-- The function `fetchMonthlyData`: without a user identifier it returns `[]` at once;
otherwise it queries the store and aggregates the snapshot for `month`. -/
def fetchMonthlyData (env : Env) (month : String) : Run (List (String × Int)) :=
  match sessionUserId env with
  | Except.error e => { queried := [], result := Except.error e }
  | Except.ok none => { queried := [], result := Except.ok [] }
  | Except.ok (some userId) =>
    if truthy userId then
      match env.getDocs userId with
      | Except.error e => { queried := [userId], result := Except.error e }
      | Except.ok snapshot =>
        { queried := [userId], result := aggregate env.locale snapshot month }
    else
      { queried := [], result := Except.ok [] }

/-- The function `getAvailableMonths`: without a user identifier it returns `[]` at once;
otherwise it queries the store and lists the months of the snapshot. -/
def getAvailableMonths (env : Env) : Run (List String) :=
  match sessionUserId env with
  | Except.error e => { queried := [], result := Except.error e }
  | Except.ok none => { queried := [], result := Except.ok [] }
  | Except.ok (some userId) =>
    if truthy userId then
      match env.getDocs userId with
      | Except.error e => { queried := [userId], result := Except.error e }
      | Except.ok snapshot =>
        { queried := [userId], result := availableMonths env.locale snapshot }
    else
      { queried := [], result := Except.ok [] }

/-! ## Vocabulary of the specification -/

/-- The long month name derived from a record's timestamp; `none` when the record has no
timestamp to resolve. -/
def monthNameOf (loc : Locale) (r : DocData) : Option String :=
  match resolveDate r.date with
  | Except.ok date => some (toLocaleMonth loc date)
  | Except.error _ => none

/-- The record has a `date` field. -/
def hasTimestamp (r : DocData) : Bool :=
  match r.date with
  | DateField.absent => false
  | _ => true

/-- The record's timestamp resolves to a valid date. -/
def validTimestamp (r : DocData) : Bool :=
  match resolveDate r.date with
  | Except.ok (JSDate.valid _) => true
  | _ => false

/-- The record's timestamp is malformed: missing, or not parsing to a date. -/
def malformedTimestamp (r : DocData) : Bool :=
  !validTimestamp r

/-- Every count stored in the record is non-negative. -/
def nonnegCounts (r : DocData) : Bool :=
  (r.detectionsCount.getD []).all (fun p => decide (0 ≤ p.2))

/-- A record set of the data model: every record carries a timestamp (a temporal value or
a string) and non-negative counts. -/
def RecordSet (R : List DocData) : Prop :=
  ∀ r ∈ R, hasTimestamp r = true ∧ nonnegCounts r = true

instance (R : List DocData) : Decidable (RecordSet R) :=
  inferInstanceAs (Decidable (∀ r ∈ R, hasTimestamp r = true ∧ nonnegCounts r = true))

/-- A record set all of whose timestamps are valid. -/
def ValidRecordSet (R : List DocData) : Prop :=
  ∀ r ∈ R, validTimestamp r = true ∧ nonnegCounts r = true

instance (R : List DocData) : Decidable (ValidRecordSet R) :=
  inferInstanceAs (Decidable (∀ r ∈ R, validTimestamp r = true ∧ nonnegCounts r = true))

/-- The count a record stores under `key`; a record lacking the key, or the whole count
mapping, contributes 0. -/
def storedCount (key : String) (r : DocData) : Int :=
  match r.detectionsCount with
  | none => 0
  | some counts => (counts.lookup key).getD 0

/-- The records of `R` whose month is `M`. -/
def recordsOfMonth (loc : Locale) (R : List DocData) (M : String) : List DocData :=
  R.filter (fun r => decide (monthNameOf loc r = some M))

/-- The sum, over the records of `R` whose month is `M`, of the counts stored under `key`:
the exact integer sum. -/
def categoryTotal (loc : Locale) (R : List DocData) (M : String) (key : String) : Int :=
  ((recordsOfMonth loc R M).map (storedCount key)).sum

/-- The four sums of month `M` are at most `2 ^ 53`, the range in which JavaScript numbers
add integers exactly. -/
def ExactRange (loc : Locale) (R : List DocData) (M : String) : Prop :=
  categoryTotal loc R M "Healthy" ≤ 2 ^ 53 ∧ categoryTotal loc R M "Salmonella-like" ≤ 2 ^ 53 ∧
    categoryTotal loc R M "NCD-like" ≤ 2 ^ 53 ∧ categoryTotal loc R M "Coccidiosis-like" ≤ 2 ^ 53

instance (loc : Locale) (R : List DocData) (M : String) : Decidable (ExactRange loc R M) :=
  inferInstanceAs (Decidable (_ ∧ _ ∧ _ ∧ _))

/-- The row that the `forEach` callback pushes for a record. -/
def rowOf (data : DocData) : Row :=
  { Healthy := countOrZero (data.detectionsCount.getD []) "Healthy",
    Salmonella := countOrZero (data.detectionsCount.getD []) "Salmonella-like",
    Newcastle := countOrZero (data.detectionsCount.getD []) "NCD-like",
    Coccidiosis := countOrZero (data.detectionsCount.getD []) "Coccidiosis-like" }

/-- The total the code accumulates for `key`: the counts of the records of month `M`, added
one after the other with `jsAdd`, in record order. -/
def runningTotal (loc : Locale) (R : List DocData) (M : String) (key : String) : Int :=
  ((recordsOfMonth loc R M).map (storedCount key)).foldl jsAdd 0

/-- The four running totals, as a row. -/
def totalsRow (loc : Locale) (R : List DocData) (M : String) : Row :=
  { Healthy := runningTotal loc R M "Healthy",
    Salmonella := runningTotal loc R M "Salmonella-like",
    Newcastle := runningTotal loc R M "NCD-like",
    Coccidiosis := runningTotal loc R M "Coccidiosis-like" }

/-- The derived month names of the records, in record order, with repetitions. -/
def monthNames (loc : Locale) (R : List DocData) : List String :=
  R.filterMap (monthNameOf loc)

/-- The records of `R` without those whose timestamp is malformed. -/
def dropMalformed (R : List DocData) : List DocData :=
  R.filter validTimestamp

/-- The records of `R` whose timestamp is malformed. -/
def keepMalformed (R : List DocData) : List DocData :=
  R.filter malformedTimestamp

/-- The month name is one of the twelve canonical ones. -/
def canonicalMonth (m : String) : Prop :=
  m ∈ months

instance (m : String) : Decidable (canonicalMonth m) :=
  inferInstanceAs (Decidable (m ∈ months))

/-- The locale gives `name` to one of the twelve months. -/
def localeMonth (loc : Locale) (name : String) : Prop :=
  ∃ m : Fin 12, loc m = name

instance (loc : Locale) (name : String) : Decidable (localeMonth loc name) :=
  inferInstanceAs (Decidable (∃ m : Fin 12, loc m = name))

/-- Month names that the locale tells apart occupy different positions of `months`, as the
English names do; the comparator of `fetchAvailableMonths` can then order them. -/
def DistinctPositions (loc : Locale) : Prop :=
  ∀ m1 m2 : Fin 12, monthIndex (loc m1) = monthIndex (loc m2) → loc m1 = loc m2

instance (loc : Locale) : Decidable (DistinctPositions loc) :=
  inferInstanceAs
    (Decidable (∀ m1 m2 : Fin 12, monthIndex (loc m1) = monthIndex (loc m2) → loc m1 = loc m2))

/-! ## Fixtures: the scenarios of the specification -/

/-- Scenario A: one March record with three healthy detections. -/
def scenarioA : List DocData :=
  [{ date := DateField.timestamp 2, detectionsCount := some [("Healthy", 3)] }]

/-- Scenario B: one March record whose only count is zero. -/
def scenarioB : List DocData :=
  [{ date := DateField.timestamp 2, detectionsCount := some [("Healthy", 0)] }]

/-- Scenario C, extended: two January records with one category each, a January record
without a count mapping, and a February record carrying an unrecognised key. -/
def scenarioC : List DocData :=
  [{ date := DateField.raw (JSDate.valid 0), detectionsCount := some [("Salmonella-like", 2)] },
   { date := DateField.timestamp 0, detectionsCount := some [("NCD-like", 1)] },
   { date := DateField.timestamp 0, detectionsCount := none },
   { date := DateField.timestamp 1, detectionsCount := some [("Healthy", 5), ("Other", 9)] }]

/-- One record whose date string does not parse, with three healthy detections. -/
def unparsedRecord : List DocData :=
  [{ date := DateField.raw JSDate.invalid, detectionsCount := some [("Healthy", 3)] }]

/-- Records of February and November only, arriving out of calendar order; their counts are
zero, absent or irrelevant. -/
def scenarioE : List DocData :=
  [{ date := DateField.timestamp 10, detectionsCount := some [("Healthy", 0)] },
   { date := DateField.raw (JSDate.valid 1), detectionsCount := none },
   { date := DateField.timestamp 10, detectionsCount := some [("NCD-like", 4)] }]

/-- The records of scenario E in another arrival order. -/
def scenarioEPermuted : List DocData :=
  [{ date := DateField.raw (JSDate.valid 1), detectionsCount := none },
   { date := DateField.timestamp 10, detectionsCount := some [("NCD-like", 4)] },
   { date := DateField.timestamp 10, detectionsCount := some [("Healthy", 0)] }]

/-- One record without a `date` field. -/
def undatedRecord : List DocData :=
  [{ date := DateField.absent, detectionsCount := some [("Healthy", 1)] }]

/-- Two March records with `2 ^ 53` and 1 healthy detections. -/
def roundedPair : List DocData :=
  [{ date := DateField.timestamp 2, detectionsCount := some [("Healthy", 9007199254740992)] },
   { date := DateField.timestamp 2, detectionsCount := some [("Healthy", 1)] }]

/-- Three March records with `2 ^ 53`, 1 and 1 healthy detections. -/
def largeFirst : List DocData :=
  [{ date := DateField.timestamp 2, detectionsCount := some [("Healthy", 9007199254740992)] },
   { date := DateField.timestamp 2, detectionsCount := some [("Healthy", 1)] },
   { date := DateField.timestamp 2, detectionsCount := some [("Healthy", 1)] }]

/-- The records of `largeFirst` with the large count arriving last. -/
def largeLast : List DocData :=
  [{ date := DateField.timestamp 2, detectionsCount := some [("Healthy", 1)] },
   { date := DateField.timestamp 2, detectionsCount := some [("Healthy", 1)] },
   { date := DateField.timestamp 2, detectionsCount := some [("Healthy", 9007199254740992)] }]

/-- The JSON text of an object whose single member `UserID` is the string `u1`. -/
def storedUserText : String :=
  "\x7b\x22UserID\x22:\x22u1\x22\x7d"

/-- The function `JSON.parse` on the texts the sessions below store: the text `null` and
`storedUserText`; these sessions parse no other text. -/
def parseStored (s : String) : Except JSError Json :=
  if s = "null" then Except.ok Json.null
  else if s = storedUserText then Except.ok (Json.obj [("UserID", Json.str "u1")])
  else Except.error JSError.syntaxError

/-- A session whose stored item is the JSON text `null`; its store would fail if queried. -/
def nullUserEnv : Env :=
  { loggedInUser := some "null",
    jsonParse := parseStored,
    getDocs := fun _ => Except.error JSError.storeError,
    locale := englishLocale }

/-- A session of user `u1`, stored as a JSON object, whose store query fails. -/
def failingStoreEnv : Env :=
  { loggedInUser := some storedUserText,
    jsonParse := parseStored,
    getDocs := fun _ => Except.error JSError.storeError,
    locale := englishLocale }

/-! ## Auxiliary lemmas: JavaScript addition -/

theorem roundDouble_of_natAbs_le {x : Int} (h : x.natAbs ≤ 2 ^ 53) : roundDouble x = x := by
  unfold roundDouble
  rw [if_pos h]

theorem two_pow_excessBits_le (fuel : Nat) : ∀ n : Nat, 1 ≤ n → 2 ^ excessBits fuel n ≤ n := by
  induction fuel with
  | zero => intro n hn; simpa [excessBits] using hn
  | succ k ih =>
    intro n hn
    unfold excessBits
    split
    · simpa using hn
    · rename_i hbig
      have h53 : (2 : Nat) ^ 53 ≤ n := Nat.le_of_not_lt hbig
      have h2 : 2 ≤ n := le_trans (by norm_num) h53
      have hhalf : 1 ≤ n / 2 := by omega
      have hrec := ih (n / 2) hhalf
      calc 2 ^ (excessBits k (n / 2) + 1) = 2 ^ excessBits k (n / 2) * 2 := pow_succ _ _
        _ ≤ n / 2 * 2 := Nat.mul_le_mul_right 2 hrec
        _ ≤ n := Nat.div_mul_le_self n 2

theorem div_two_pow_excessBits_lt (fuel : Nat) :
    ∀ n : Nat, n ≤ fuel → n / 2 ^ excessBits fuel n < 2 ^ 53 := by
  induction fuel with
  | zero =>
    intro n hn
    have h0 : n = 0 := Nat.le_zero.1 hn
    subst h0
    simp [excessBits]
  | succ k ih =>
    intro n hn
    unfold excessBits
    split
    · rename_i hsmall
      simpa using hsmall
    · rename_i hbig
      have h53 : (2 : Nat) ^ 53 ≤ n := Nat.le_of_not_lt hbig
      have h2 : 2 ≤ n := le_trans (by norm_num) h53
      have hhalf : n / 2 ≤ k := by omega
      have hrec := ih (n / 2) hhalf
      have e : 2 ^ (excessBits k (n / 2) + 1) = 2 * 2 ^ excessBits k (n / 2) := by
        rw [pow_succ, Nat.mul_comm]
      rw [e, ← Nat.div_div_eq_div_mul]
      exact hrec

theorem le_div_two_pow_excessBits (fuel : Nat) :
    ∀ n : Nat, 2 ^ 53 ≤ n → 2 ^ 52 ≤ n / 2 ^ excessBits (fuel + 1) n := by
  induction fuel with
  | zero =>
    intro n hn
    have hbig : ¬ n < 2 ^ 53 := Nat.not_lt.2 hn
    simp only [excessBits, hbig, if_false, zero_add, pow_one]
    omega
  | succ k ih =>
    intro n hn
    have hbig : ¬ n < 2 ^ 53 := Nat.not_lt.2 hn
    have e : 2 ^ (excessBits (k + 1) (n / 2) + 1) = 2 * 2 ^ excessBits (k + 1) (n / 2) := by
      rw [pow_succ, Nat.mul_comm]
    rw [excessBits, if_neg hbig, e, ← Nat.div_div_eq_div_mul]
    by_cases hhalf : n / 2 < 2 ^ 53
    · rw [excessBits, if_pos hhalf]
      simp only [pow_zero, Nat.div_one]
      omega
    · exact ih (n / 2) (Nat.le_of_not_lt hhalf)

/-- The recursion bound of `excessBits` suffices: beyond `2 ^ 53`, dividing by the spacing
leaves a significand of exactly 53 bits. -/
theorem significand_of_excessBits (n : Nat) (h : 2 ^ 53 ≤ n) :
    2 ^ 52 ≤ n / 2 ^ excessBits n n ∧ n / 2 ^ excessBits n n < 2 ^ 53 := by
  refine ⟨?_, div_two_pow_excessBits_lt n n le_rfl⟩
  have hpos : 1 ≤ n := le_trans (by norm_num) h
  obtain ⟨k, rfl⟩ : ∃ k, n = k + 1 := ⟨n - 1, by omega⟩
  exact le_div_two_pow_excessBits k (k + 1) h

theorem roundDouble_pos {x : Int} (h : 2 ^ 53 < x) : 0 < roundDouble x := by
  have hx : 0 < x := lt_trans (by norm_num) h
  have habs : ¬ x.natAbs ≤ 2 ^ 53 := by
    intro hle
    have : (x.natAbs : Int) ≤ ((2 ^ 53 : Nat) : Int) := Int.ofNat_le.2 hle
    rw [Int.natAbs_of_nonneg hx.le] at this
    norm_num at this
    omega
  have hn : 1 ≤ x.natAbs := Int.natAbs_pos.2 hx.ne'
  have hpow := two_pow_excessBits_le x.natAbs x.natAbs hn
  have hq : 1 ≤ x.natAbs / 2 ^ excessBits x.natAbs x.natAbs :=
    (Nat.one_le_div_iff (by positivity)).2 hpow
  unfold roundDouble
  rw [if_neg habs]
  simp only
  rw [Int.sign_eq_one_of_pos hx, one_mul]
  have hpos : 0 < 2 ^ excessBits x.natAbs x.natAbs := by positivity
  split
  · exact_mod_cast Nat.mul_pos (by omega) hpos
  · exact_mod_cast Nat.mul_pos (by omega) hpos

theorem roundDouble_of_nonneg_le {x : Int} (h0 : 0 ≤ x) (h : x ≤ 2 ^ 53) : roundDouble x = x := by
  apply roundDouble_of_natAbs_le
  have : ((x.natAbs : Nat) : Int) ≤ ((2 ^ 53 : Nat) : Int) := by
    rw [Int.natAbs_of_nonneg h0]
    exact_mod_cast h
  exact Int.ofNat_le.1 this

theorem roundDouble_nonneg {x : Int} (h0 : 0 ≤ x) : 0 ≤ roundDouble x := by
  by_cases h : x ≤ 2 ^ 53
  · rw [roundDouble_of_nonneg_le h0 h]; exact h0
  · exact (roundDouble_pos (lt_of_not_le h)).le

theorem roundDouble_eq_zero_iff {x : Int} (h0 : 0 ≤ x) : roundDouble x = 0 ↔ x = 0 := by
  by_cases h : x ≤ 2 ^ 53
  · rw [roundDouble_of_nonneg_le h0 h]
  · have hpos := roundDouble_pos (lt_of_not_le h)
    have hx : (2 : Int) ^ 53 < x := lt_of_not_le h
    constructor
    · intro hz; omega
    · intro hz; rw [hz] at hx; norm_num at hx

/-- Adding non-negative integers with `jsAdd` is exact as long as the exact sum stays within
`2 ^ 53`. -/
theorem foldl_jsAdd_exact (xs : List Int) :
    ∀ acc : Int, 0 ≤ acc → (∀ x ∈ xs, 0 ≤ x) → acc + xs.sum ≤ 2 ^ 53 →
      xs.foldl jsAdd acc = acc + xs.sum := by
  induction xs with
  | nil => intro acc _ _ _; simp
  | cons x rest ih =>
    intro acc hacc hnn hle
    have hx : 0 ≤ x := hnn x (List.mem_cons_self _ _)
    have hrest : ∀ y ∈ rest, 0 ≤ y := fun y hy => hnn y (List.mem_cons_of_mem _ hy)
    have hsum : 0 ≤ rest.sum := List.sum_nonneg hrest
    rw [List.sum_cons] at hle
    have hstep : jsAdd acc x = acc + x := by
      unfold jsAdd
      exact roundDouble_of_nonneg_le (by omega) (by omega)
    rw [List.foldl_cons, hstep, ih (acc + x) (by omega) hrest (by omega), List.sum_cons]
    omega

theorem foldl_jsAdd_nonneg (xs : List Int) :
    ∀ acc : Int, 0 ≤ acc → (∀ x ∈ xs, 0 ≤ x) → 0 ≤ xs.foldl jsAdd acc := by
  induction xs with
  | nil => intro acc hacc _; simpa using hacc
  | cons x rest ih =>
    intro acc hacc hnn
    have hx : 0 ≤ x := hnn x (List.mem_cons_self _ _)
    have hrest : ∀ y ∈ rest, 0 ≤ y := fun y hy => hnn y (List.mem_cons_of_mem _ hy)
    rw [List.foldl_cons]
    exact ih _ (roundDouble_nonneg (by omega)) hrest

/-- A total accumulated from non-negative counts is zero exactly when their exact sum is. -/
theorem foldl_jsAdd_eq_zero_iff (xs : List Int) :
    ∀ acc : Int, 0 ≤ acc → (∀ x ∈ xs, 0 ≤ x) →
      (xs.foldl jsAdd acc = 0 ↔ acc + xs.sum = 0) := by
  induction xs with
  | nil => intro acc _ _; simp
  | cons x rest ih =>
    intro acc hacc hnn
    have hx : 0 ≤ x := hnn x (List.mem_cons_self _ _)
    have hrest : ∀ y ∈ rest, 0 ≤ y := fun y hy => hnn y (List.mem_cons_of_mem _ hy)
    have hsum : 0 ≤ rest.sum := List.sum_nonneg hrest
    have hstep0 : 0 ≤ jsAdd acc x := roundDouble_nonneg (by omega)
    have hzero : jsAdd acc x = 0 ↔ acc + x = 0 := roundDouble_eq_zero_iff (by omega)
    rw [List.foldl_cons, ih _ hstep0 hrest, List.sum_cons]
    constructor
    · intro h
      have h1 : jsAdd acc x = 0 := by omega
      have h2 := hzero.1 h1
      omega
    · intro h
      have h1 : acc + x = 0 := by omega
      have h2 := hzero.2 h1
      omega

/-! ## Auxiliary lemmas: the aggregation loop -/

theorem countOrZero_eq_storedCount (r : DocData) (key : String) :
    countOrZero (r.detectionsCount.getD []) key = storedCount key r := by
  unfold countOrZero storedCount
  cases h : r.detectionsCount with
  | none => simp
  | some counts =>
    simp only [Option.getD_some]
    cases h2 : counts.lookup key with
    | none => simp
    | some v =>
      by_cases hv : v = 0
      · simp [hv]
      · simp [hv]

theorem hasTimestamp_iff_resolves (r : DocData) :
    hasTimestamp r = true ↔ ∃ d, resolveDate r.date = Except.ok d := by
  unfold hasTimestamp
  cases h : r.date <;> simp [resolveDate]

theorem monthNameOf_of_resolve (loc : Locale) {r : DocData} {d : JSDate}
    (h : resolveDate r.date = Except.ok d) : monthNameOf loc r = some (toLocaleMonth loc d) := by
  simp [monthNameOf, h]

theorem pushIfMonth_ok (loc : Locale) (M : String) (acc : List Row) (r : DocData)
    (h : hasTimestamp r = true) :
    pushIfMonth loc M acc r =
      Except.ok (acc ++ ((recordsOfMonth loc [r] M).map rowOf)) := by
  obtain ⟨d, hd⟩ := (hasTimestamp_iff_resolves r).1 h
  have hmn := monthNameOf_of_resolve loc hd
  unfold pushIfMonth
  simp only [hd, recordsOfMonth]
  by_cases hm : toLocaleMonth loc d = M
  · simp [hm, hmn, rowOf, List.filter_cons]
  · simp [hm, hmn, List.filter_cons]

theorem pushIfMonth_error (loc : Locale) (M : String) (acc : List Row) (r : DocData)
    (h : hasTimestamp r = false) :
    pushIfMonth loc M acc r = Except.error JSError.typeError := by
  unfold hasTimestamp at h
  unfold pushIfMonth
  cases hd : r.date <;> simp_all [resolveDate]

theorem collectRows_ok (loc : Locale) (M : String) (R : List DocData) :
    ∀ acc : List Row, (∀ r ∈ R, hasTimestamp r = true) →
      collectRows loc M acc R = Except.ok (acc ++ ((recordsOfMonth loc R M).map rowOf)) := by
  induction R with
  | nil => intro acc _; simp [collectRows, recordsOfMonth]
  | cons r rest ih =>
    intro acc h
    have hr : hasTimestamp r = true := h r (List.mem_cons_self _ _)
    have hrest : ∀ x ∈ rest, hasTimestamp x = true :=
      fun x hx => h x (List.mem_cons_of_mem _ hx)
    rw [collectRows, pushIfMonth_ok loc M acc r hr]
    simp only
    rw [ih _ hrest]
    simp only [recordsOfMonth, List.filter_cons, List.filter_nil]
    by_cases hm : monthNameOf loc r = some M
    · simp [hm]
    · simp [hm]

theorem collectRows_error (loc : Locale) (M : String) (R : List DocData) :
    ∀ acc : List Row, (∃ r ∈ R, hasTimestamp r = false) →
      collectRows loc M acc R = Except.error JSError.typeError := by
  induction R with
  | nil => intro acc h; simp at h
  | cons r rest ih =>
    intro acc h
    rw [collectRows]
    by_cases hr : hasTimestamp r = true
    · rw [pushIfMonth_ok loc M acc r hr]
      simp only
      apply ih
      obtain ⟨x, hx, hx2⟩ := h
      rcases List.mem_cons.1 hx with rfl | hx1
      · rw [hr] at hx2; cases hx2
      · exact ⟨x, hx1, hx2⟩
    · have hr2 : hasTimestamp r = false := by simpa using hr
      rw [pushIfMonth_error loc M acc r hr2]

theorem foldl_addRow (rows : List Row) :
    ∀ acc : Row, rows.foldl addRow acc =
      { Healthy := (rows.map Row.Healthy).foldl jsAdd acc.Healthy,
        Salmonella := (rows.map Row.Salmonella).foldl jsAdd acc.Salmonella,
        Newcastle := (rows.map Row.Newcastle).foldl jsAdd acc.Newcastle,
        Coccidiosis := (rows.map Row.Coccidiosis).foldl jsAdd acc.Coccidiosis } := by
  induction rows with
  | nil => intro acc; simp
  | cons row rest ih =>
    intro acc
    simp only [List.foldl_cons, ih, List.map_cons, addRow]

theorem foldl_rows_eq_totals (loc : Locale) (R : List DocData) (M : String) :
    ((recordsOfMonth loc R M).map rowOf).foldl addRow zeroRow = totalsRow loc R M := by
  rw [foldl_addRow]
  simp only [zeroRow, List.map_map, totalsRow, runningTotal]
  have key : ∀ k : String, ∀ l : List DocData,
      l.map (fun r => countOrZero (r.detectionsCount.getD []) k) = l.map (storedCount k) := by
    intro k l
    apply List.map_congr_left
    intro r _
    exact countOrZero_eq_storedCount r k
  have h1 := key "Healthy" (recordsOfMonth loc R M)
  have h2 := key "Salmonella-like" (recordsOfMonth loc R M)
  have h3 := key "NCD-like" (recordsOfMonth loc R M)
  have h4 := key "Coccidiosis-like" (recordsOfMonth loc R M)
  have e1 : (Row.Healthy ∘ rowOf) = fun r => countOrZero (r.detectionsCount.getD []) "Healthy" := rfl
  have e2 : (Row.Salmonella ∘ rowOf) =
      fun r => countOrZero (r.detectionsCount.getD []) "Salmonella-like" := rfl
  have e3 : (Row.Newcastle ∘ rowOf) =
      fun r => countOrZero (r.detectionsCount.getD []) "NCD-like" := rfl
  have e4 : (Row.Coccidiosis ∘ rowOf) =
      fun r => countOrZero (r.detectionsCount.getD []) "Coccidiosis-like" := rfl
  rw [e1, e2, e3, e4, h1, h2, h3, h4]

/-- On records that all carry a timestamp, `aggregate` returns the chart data of the four
running totals of the month. -/
theorem aggregate_of_hasTimestamp (loc : Locale) (R : List DocData) (M : String)
    (h : ∀ r ∈ R, hasTimestamp r = true) :
    aggregate loc R M = Except.ok (toChartData (totalsRow loc R M)) := by
  unfold aggregate
  rw [collectRows_ok loc M R [] h]
  simp only [List.nil_append]
  rw [foldl_rows_eq_totals]

/-- A record without a timestamp makes `aggregate` fail with a `TypeError`. -/
theorem aggregate_of_missing (loc : Locale) (R : List DocData) (M : String)
    (h : ∃ r ∈ R, hasTimestamp r = false) :
    aggregate loc R M = Except.error JSError.typeError := by
  unfold aggregate
  rw [collectRows_error loc M R [] h]

theorem hasTimestamp_of_valid {r : DocData} (h : validTimestamp r = true) :
    hasTimestamp r = true := by
  unfold validTimestamp at h
  unfold hasTimestamp
  cases hd : r.date <;> simp_all [resolveDate]

theorem hasTimestamp_of_recordSet {R : List DocData} (h : RecordSet R) :
    ∀ r ∈ R, hasTimestamp r = true :=
  fun r hr => (h r hr).1

theorem recordSet_of_valid {R : List DocData} (h : ValidRecordSet R) : RecordSet R :=
  fun r hr => ⟨hasTimestamp_of_valid (h r hr).1, (h r hr).2⟩

theorem englishLocale_mem_months : ∀ m : Fin 12, englishLocale m ∈ months := by
  decide

/-- For an English locale, the names the locale gives are the canonical month names. -/
theorem localeMonth_english_iff (name : String) :
    localeMonth englishLocale name ↔ canonicalMonth name := by
  constructor
  · rintro ⟨m, rfl⟩
    exact englishLocale_mem_months m
  · intro h
    have hall : ∀ x ∈ months, localeMonth englishLocale x := by decide
    exact hall name h

/-- A derived month name is one the locale gives a month, or the text of the invalid date. -/
theorem monthNameOf_cases (loc : Locale) {r : DocData} {M : String}
    (h : monthNameOf loc r = some M) : localeMonth loc M ∨ M = "Invalid Date" := by
  unfold monthNameOf at h
  cases hd : resolveDate r.date with
  | error e => simp [hd] at h
  | ok d =>
    simp only [hd, Option.some.injEq] at h
    cases d with
    | valid m => left; exact ⟨m, h⟩
    | invalid => right; rw [← h]; rfl

/-- The derived month name of a record with a valid timestamp is one the locale gives. -/
theorem monthNameOf_of_valid (loc : Locale) {r : DocData} (hv : validTimestamp r = true)
    {M : String} (h : monthNameOf loc r = some M) : localeMonth loc M := by
  unfold validTimestamp at hv
  unfold monthNameOf at h
  cases hd : resolveDate r.date with
  | error e => simp [hd] at h
  | ok d =>
    simp only [hd, Option.some.injEq] at h
    cases d with
    | valid m => exact ⟨m, h⟩
    | invalid => simp [hd] at hv

theorem storedCount_nonneg {r : DocData} (h : nonnegCounts r = true) (key : String) :
    0 ≤ storedCount key r := by
  unfold storedCount
  unfold nonnegCounts at h
  cases hc : r.detectionsCount with
  | none => simp
  | some counts =>
    simp only [hc, Option.getD_some, List.all_eq_true, decide_eq_true_eq] at h
    cases hl : counts.lookup key with
    | none => simp [hl]
    | some v =>
      simp only [hl, Option.getD_some]
      obtain ⟨l1, l2, hsplit, _⟩ := List.lookup_eq_some_iff.1 hl
      exact h (key, v) (by rw [hsplit]; simp)

theorem counts_of_month_nonneg (loc : Locale) {R : List DocData}
    (h : ∀ r ∈ R, nonnegCounts r = true) (M key : String) :
    ∀ x ∈ (recordsOfMonth loc R M).map (storedCount key), 0 ≤ x := by
  intro x hx
  obtain ⟨r, hr, rfl⟩ := List.mem_map.1 hx
  have hrR : r ∈ R := (List.mem_filter.1 hr).1
  exact storedCount_nonneg (h r hrR) key

theorem categoryTotal_nonneg (loc : Locale) {R : List DocData}
    (h : ∀ r ∈ R, nonnegCounts r = true) (M key : String) : 0 ≤ categoryTotal loc R M key :=
  List.sum_nonneg (counts_of_month_nonneg loc h M key)

theorem runningTotal_nonneg (loc : Locale) {R : List DocData}
    (h : ∀ r ∈ R, nonnegCounts r = true) (M key : String) : 0 ≤ runningTotal loc R M key :=
  foldl_jsAdd_nonneg _ 0 le_rfl (counts_of_month_nonneg loc h M key)

/-- With non-negative counts, the total the code accumulates is zero exactly when the exact
sum is. -/
theorem runningTotal_eq_zero_iff (loc : Locale) {R : List DocData}
    (h : ∀ r ∈ R, nonnegCounts r = true) (M key : String) :
    runningTotal loc R M key = 0 ↔ categoryTotal loc R M key = 0 := by
  unfold runningTotal categoryTotal
  rw [foldl_jsAdd_eq_zero_iff _ 0 le_rfl (counts_of_month_nonneg loc h M key), zero_add]

/-- With non-negative counts and an exact sum of at most `2 ^ 53`, the total the code
accumulates is the exact sum. -/
theorem runningTotal_eq_categoryTotal (loc : Locale) {R : List DocData}
    (h : ∀ r ∈ R, nonnegCounts r = true) (M key : String)
    (hb : categoryTotal loc R M key ≤ 2 ^ 53) :
    runningTotal loc R M key = categoryTotal loc R M key := by
  unfold runningTotal
  unfold categoryTotal at hb ⊢
  rw [foldl_jsAdd_exact _ 0 le_rfl (counts_of_month_nonneg loc h M key) (by simpa using hb),
    zero_add]

theorem recordsOfMonth_of_no_record (loc : Locale) {R : List DocData} {M : String}
    (h : ∀ r ∈ R, monthNameOf loc r ≠ some M) : recordsOfMonth loc R M = [] := by
  unfold recordsOfMonth
  rw [List.filter_eq_nil_iff]
  intro r hr
  simpa using h r hr

theorem categoryTotal_of_no_record (loc : Locale) {R : List DocData} {M : String}
    (h : ∀ r ∈ R, monthNameOf loc r ≠ some M) (key : String) :
    categoryTotal loc R M key = 0 := by
  simp [categoryTotal, recordsOfMonth_of_no_record loc h]

theorem toChartData_eq_nil_iff (row : Row) :
    toChartData row = [] ↔
      (row.Healthy = 0 ∧ row.Salmonella = 0 ∧ row.Newcastle = 0 ∧ row.Coccidiosis = 0) := by
  unfold toChartData
  by_cases h : row.Healthy = 0 ∧ row.Salmonella = 0 ∧ row.Newcastle = 0 ∧ row.Coccidiosis = 0
  · simp [h]
  · simp only [h, if_false]
    simp

/-! ## Auxiliary lemmas: the month enumeration loop -/

theorem collectMonths_ok (loc : Locale) (R : List DocData) :
    ∀ acc : List String, (∀ r ∈ R, hasTimestamp r = true) →
      collectMonths loc acc R = Except.ok ((monthNames loc R).foldl setAdd acc) := by
  induction R with
  | nil => intro acc _; simp [collectMonths, monthNames]
  | cons r rest ih =>
    intro acc h
    have hr : hasTimestamp r = true := h r (List.mem_cons_self _ _)
    have hrest : ∀ x ∈ rest, hasTimestamp x = true :=
      fun x hx => h x (List.mem_cons_of_mem _ hx)
    obtain ⟨d, hd⟩ := (hasTimestamp_iff_resolves r).1 hr
    have hmn := monthNameOf_of_resolve loc hd
    rw [collectMonths]
    simp only [hd]
    rw [ih _ hrest]
    simp [monthNames, List.filterMap_cons, hmn]

theorem collectMonths_error (loc : Locale) (R : List DocData) :
    ∀ acc : List String, (∃ r ∈ R, hasTimestamp r = false) →
      collectMonths loc acc R = Except.error JSError.typeError := by
  induction R with
  | nil => intro acc h; simp at h
  | cons r rest ih =>
    intro acc h
    rw [collectMonths]
    cases hd : resolveDate r.date with
    | error e =>
      cases hdate : r.date <;> simp_all [resolveDate]
    | ok d =>
      simp only
      apply ih
      obtain ⟨x, hx, hx2⟩ := h
      rcases List.mem_cons.1 hx with rfl | hx1
      · have : hasTimestamp x = true := (hasTimestamp_iff_resolves x).2 ⟨d, hd⟩
        rw [this] at hx2; cases hx2
      · exact ⟨x, hx1, hx2⟩

/-- On records that all carry a timestamp, `availableMonths` is the insertion-ordered set of
their derived month names. -/
theorem availableMonths_of_hasTimestamp (loc : Locale) (R : List DocData)
    (h : ∀ r ∈ R, hasTimestamp r = true) :
    availableMonths loc R = Except.ok ((monthNames loc R).foldl setAdd []) :=
  collectMonths_ok loc R [] h

/-- A record without a timestamp makes `availableMonths` fail with a `TypeError`. -/
theorem availableMonths_of_missing (loc : Locale) (R : List DocData)
    (h : ∃ r ∈ R, hasTimestamp r = false) :
    availableMonths loc R = Except.error JSError.typeError :=
  collectMonths_error loc R [] h

theorem mem_setAdd (s : List String) (x y : String) :
    y ∈ setAdd s x ↔ y ∈ s ∨ y = x := by
  unfold setAdd
  by_cases h : x ∈ s
  · simp only [h, if_true]
    constructor
    · exact Or.inl
    · rintro (h1 | h1)
      · exact h1
      · rw [h1]; exact h
  · simp [h]

theorem nodup_setAdd (s : List String) (x : String) (h : s.Nodup) : (setAdd s x).Nodup := by
  unfold setAdd
  by_cases hx : x ∈ s
  · simpa [hx] using h
  · simp only [hx, if_false]
    rw [List.nodup_append]
    refine ⟨h, List.nodup_singleton x, ?_⟩
    intro a ha hb
    rw [List.mem_singleton] at hb
    exact hx (hb ▸ ha)

theorem mem_foldl_setAdd (names : List String) :
    ∀ (acc : List String) (y : String),
      y ∈ names.foldl setAdd acc ↔ y ∈ acc ∨ y ∈ names := by
  induction names with
  | nil => intro acc y; simp
  | cons x rest ih =>
    intro acc y
    rw [List.foldl_cons, ih, mem_setAdd, List.mem_cons]
    tauto

theorem nodup_foldl_setAdd (names : List String) :
    ∀ acc : List String, acc.Nodup → (names.foldl setAdd acc).Nodup := by
  induction names with
  | nil => intro acc h; simpa using h
  | cons x rest ih =>
    intro acc h
    rw [List.foldl_cons]
    exact ih _ (nodup_setAdd acc x h)

theorem mem_monthNames (loc : Locale) (R : List DocData) (m : String) :
    m ∈ monthNames loc R ↔ ∃ r ∈ R, monthNameOf loc r = some m := by
  simp [monthNames, List.mem_filterMap]

/-- The months listed for records that carry a timestamp are exactly their derived names. -/
theorem mem_listed_iff (loc : Locale) (R : List DocData) (m : String) :
    m ∈ (monthNames loc R).foldl setAdd [] ↔ ∃ r ∈ R, monthNameOf loc r = some m := by
  rw [mem_foldl_setAdd, mem_monthNames]
  simp

/-! ## Auxiliary lemmas: the month ordering -/

theorem calendarLE_iff (a b : String) : calendarLE a b ↔ monthIndex a ≤ monthIndex b := by
  unfold calendarLE monthCompare
  omega

theorem sorted_sortMonths (l : List String) :
    (sortMonths l).Sorted (fun a b => monthIndex a ≤ monthIndex b) := by
  have h : (sortMonths l).Sorted calendarLE := List.sorted_insertionSort calendarLE l
  exact List.Pairwise.imp (fun {a b} hab => (calendarLE_iff a b).1 hab) h

theorem perm_sortMonths (l : List String) : List.Perm (sortMonths l) l :=
  List.perm_insertionSort calendarLE l

/-- The canonical month names have pairwise distinct positions. -/
theorem monthIndex_injOn :
    ∀ x ∈ months, ∀ y ∈ months, monthIndex x = monthIndex y → x = y := by
  decide

theorem strictSorted_sortMonths (l : List String) (hn : l.Nodup)
    (hinj : ∀ x ∈ l, ∀ y ∈ l, monthIndex x = monthIndex y → x = y) :
    (sortMonths l).Sorted calendarLT := by
  have hs := sorted_sortMonths l
  have hp := perm_sortMonths l
  have hn2 : (sortMonths l).Nodup := hp.nodup_iff.2 hn
  have hboth := List.Pairwise.and hs hn2
  refine List.Pairwise.imp_of_mem ?_ hboth
  intro a b ha hb hab
  unfold calendarLT
  rcases lt_or_eq_of_le hab.1 with h | h
  · exact h
  · exact absurd (hinj a (hp.mem_iff.1 ha) b (hp.mem_iff.1 hb) h) hab.2

/-- Sorting does not depend on the arrival order of a duplicate-free list of names with
pairwise distinct positions. -/
theorem sortMonths_eq_of_perm {l1 l2 : List String} (hp : List.Perm l1 l2) (hn : l1.Nodup)
    (hinj : ∀ x ∈ l1, ∀ y ∈ l1, monthIndex x = monthIndex y → x = y) :
    sortMonths l1 = sortMonths l2 := by
  have h1 := strictSorted_sortMonths l1 hn hinj
  have h2 := strictSorted_sortMonths l2 (hp.nodup_iff.1 hn)
    (fun x hx y hy => hinj x (hp.mem_iff.2 hx) y (hp.mem_iff.2 hy))
  have hperm : List.Perm (sortMonths l1) (sortMonths l2) :=
    ((perm_sortMonths l1).trans hp).trans (perm_sortMonths l2).symm
  exact List.eq_of_perm_of_sorted hperm h1 h2

/-! ## Claims about `aggregate` -/

/-- C1, as stated, fails: JavaScript numbers add integers exactly only up to `2 ^ 53`. Two
March records with `2 ^ 53` and 1 healthy detections have the sum `2 ^ 53 + 1`, and
`aggregate` returns `2 ^ 53`. -/
theorem aggregate_rounds_beyond_exact_range :
    ValidRecordSet roundedPair ∧
      categoryTotal englishLocale roundedPair "March" "Healthy" = 9007199254740993 ∧
      aggregate englishLocale roundedPair "March" =
        Except.ok [("Healthy", 9007199254740992), ("Salmonella", 0), ("Newcastle", 0),
                   ("Coccidiosis", 0)] := by
  decide

/-- C1, amended: for a record set with valid timestamps and non-negative counts, any locale
and any month name `M`, if at least one of the four per-category sums over the records of
month `M` is non-zero and each of the four sums is at most `2 ^ 53`, then `aggregate R M` is
exactly the four pairs Healthy, Salmonella, Newcastle, Coccidiosis, in this order, carrying
the sums of the counts stored under `Healthy`, `Salmonella-like`, `NCD-like` and
`Coccidiosis-like` over the records of month `M` only (a missing key or a missing count
mapping contributes 0, other keys are ignored); pairs with a zero total stay. -/
theorem aggregate_eq_category_totals (loc : Locale) (R : List DocData) (M : String)
    (hR : ValidRecordSet R) (hb : ExactRange loc R M)
    (hne : categoryTotal loc R M "Healthy" ≠ 0 ∨ categoryTotal loc R M "Salmonella-like" ≠ 0 ∨
      categoryTotal loc R M "NCD-like" ≠ 0 ∨ categoryTotal loc R M "Coccidiosis-like" ≠ 0) :
    aggregate loc R M =
      Except.ok [("Healthy", categoryTotal loc R M "Healthy"),
                 ("Salmonella", categoryTotal loc R M "Salmonella-like"),
                 ("Newcastle", categoryTotal loc R M "NCD-like"),
                 ("Coccidiosis", categoryTotal loc R M "Coccidiosis-like")] := by
  have hnn : ∀ r ∈ R, nonnegCounts r = true := fun r hr => (hR r hr).2
  rw [aggregate_of_hasTimestamp loc R M (hasTimestamp_of_recordSet (recordSet_of_valid hR))]
  have e1 := runningTotal_eq_categoryTotal loc hnn M "Healthy" hb.1
  have e2 := runningTotal_eq_categoryTotal loc hnn M "Salmonella-like" hb.2.1
  have e3 := runningTotal_eq_categoryTotal loc hnn M "NCD-like" hb.2.2.1
  have e4 := runningTotal_eq_categoryTotal loc hnn M "Coccidiosis-like" hb.2.2.2
  have hnz : ¬ ((totalsRow loc R M).Healthy = 0 ∧ (totalsRow loc R M).Salmonella = 0 ∧
      (totalsRow loc R M).Newcastle = 0 ∧ (totalsRow loc R M).Coccidiosis = 0) := by
    simp only [totalsRow, e1, e2, e3, e4]
    intro hz
    rcases hne with h | h | h | h
    · exact h hz.1
    · exact h hz.2.1
    · exact h hz.2.2.1
    · exact h hz.2.2.2
  unfold toChartData
  rw [if_neg hnz]
  simp only [totalsRow, e1, e2, e3, e4]

/-- Witness for the amended C1 on scenario C: the January totals are 0, 2, 1, 0. -/
theorem aggregate_eq_category_totals_witness :
    ValidRecordSet scenarioC ∧ ExactRange englishLocale scenarioC "January" ∧
      aggregate englishLocale scenarioC "January" =
        Except.ok [("Healthy", 0), ("Salmonella", 2), ("Newcastle", 1), ("Coccidiosis", 0)] :=
  ⟨by decide, by decide,
   (aggregate_eq_category_totals englishLocale scenarioC "January"
      (by decide) (by decide) (by decide)).trans (by decide)⟩

/-- C2: for a record set (timestamps present, non-negative counts), any locale and any month
name `M`, `aggregate R M` is the empty sequence exactly when all four category totals over
the records of month `M` are zero; in particular it is empty when every record maps to a
month other than `M`, when `R` is empty, and when the records of month `M` all have zero
recognised counts. -/
theorem aggregate_empty_iff_totals_zero (loc : Locale) (R : List DocData) (M : String)
    (hR : RecordSet R) :
    (aggregate loc R M = Except.ok [] ↔
      (categoryTotal loc R M "Healthy" = 0 ∧ categoryTotal loc R M "Salmonella-like" = 0 ∧
        categoryTotal loc R M "NCD-like" = 0 ∧ categoryTotal loc R M "Coccidiosis-like" = 0)) ∧
    ((∀ r ∈ R, monthNameOf loc r ≠ some M) → aggregate loc R M = Except.ok []) ∧
    (R = [] → aggregate loc R M = Except.ok []) ∧
    ((∀ r ∈ recordsOfMonth loc R M,
        storedCount "Healthy" r = 0 ∧ storedCount "Salmonella-like" r = 0 ∧
        storedCount "NCD-like" r = 0 ∧ storedCount "Coccidiosis-like" r = 0) →
      aggregate loc R M = Except.ok []) := by
  have hnn : ∀ r ∈ R, nonnegCounts r = true := fun r hr => (hR r hr).2
  have hagg := aggregate_of_hasTimestamp loc R M (hasTimestamp_of_recordSet hR)
  have hiff : aggregate loc R M = Except.ok [] ↔
      (categoryTotal loc R M "Healthy" = 0 ∧ categoryTotal loc R M "Salmonella-like" = 0 ∧
        categoryTotal loc R M "NCD-like" = 0 ∧ categoryTotal loc R M "Coccidiosis-like" = 0) := by
    rw [hagg]
    constructor
    · intro h
      have hz := (toChartData_eq_nil_iff (totalsRow loc R M)).1 (Except.ok.inj h)
      simp only [totalsRow] at hz
      exact ⟨(runningTotal_eq_zero_iff loc hnn M _).1 hz.1,
        (runningTotal_eq_zero_iff loc hnn M _).1 hz.2.1,
        (runningTotal_eq_zero_iff loc hnn M _).1 hz.2.2.1,
        (runningTotal_eq_zero_iff loc hnn M _).1 hz.2.2.2⟩
    · intro h
      rw [(toChartData_eq_nil_iff (totalsRow loc R M)).2
        ⟨(runningTotal_eq_zero_iff loc hnn M _).2 h.1,
         (runningTotal_eq_zero_iff loc hnn M _).2 h.2.1,
         (runningTotal_eq_zero_iff loc hnn M _).2 h.2.2.1,
         (runningTotal_eq_zero_iff loc hnn M _).2 h.2.2.2⟩]
  have hzero : ∀ key : String, (∀ r ∈ recordsOfMonth loc R M, storedCount key r = 0) →
      categoryTotal loc R M key = 0 := by
    intro key h
    unfold categoryTotal
    apply List.sum_eq_zero
    intro x hx
    obtain ⟨r, hr, rfl⟩ := List.mem_map.1 hx
    exact h r hr
  refine ⟨hiff, ?_, ?_, ?_⟩
  · intro h
    exact hiff.2 ⟨categoryTotal_of_no_record loc h _, categoryTotal_of_no_record loc h _,
      categoryTotal_of_no_record loc h _, categoryTotal_of_no_record loc h _⟩
  · intro h
    subst h
    exact hiff.2 ⟨rfl, rfl, rfl, rfl⟩
  · intro h
    exact hiff.2 ⟨hzero _ (fun r hr => (h r hr).1), hzero _ (fun r hr => (h r hr).2.1),
      hzero _ (fun r hr => (h r hr).2.2.1), hzero _ (fun r hr => (h r hr).2.2.2)⟩

/-- Witness for C2 on scenario B: one March record with `Healthy = 0` gives the empty
sequence for March. -/
theorem aggregate_empty_iff_totals_zero_witness :
    RecordSet scenarioB ∧ aggregate englishLocale scenarioB "March" = Except.ok [] :=
  ⟨by decide,
   (aggregate_empty_iff_totals_zero englishLocale scenarioB "March" (by decide)).2.2.2
     (by decide)⟩

/-- C3: for every record set (timestamps present, non-negative counts), locale and month
name, `aggregate` returns either the empty sequence or exactly four pairs labelled Healthy,
Salmonella, Newcastle, Coccidiosis in this order, and no total in the result is negative. -/
theorem aggregate_shape (loc : Locale) (R : List DocData) (M : String) (hR : RecordSet R) :
    ∃ out, aggregate loc R M = Except.ok out ∧
      (out = [] ∨
        (out.length = 4 ∧
          out.map Prod.fst = ["Healthy", "Salmonella", "Newcastle", "Coccidiosis"])) ∧
      ∀ p ∈ out, 0 ≤ p.2 := by
  refine ⟨toChartData (totalsRow loc R M),
    aggregate_of_hasTimestamp loc R M (hasTimestamp_of_recordSet hR), ?_, ?_⟩
  · unfold toChartData
    split
    · left; rfl
    · right; exact ⟨rfl, rfl⟩
  · have hnn : ∀ key : String, 0 ≤ runningTotal loc R M key :=
      fun key => runningTotal_nonneg loc (fun r hr => (hR r hr).2) M key
    intro p hp
    unfold toChartData at hp
    split at hp
    · simp at hp
    · simp only [totalsRow, List.mem_cons, List.mem_singleton, List.not_mem_nil, or_false] at hp
      rcases hp with rfl | rfl | rfl | rfl <;> exact hnn _

/-- Witness for C3 on scenario A. -/
theorem aggregate_shape_witness :
    RecordSet scenarioA ∧
      ∃ out, aggregate englishLocale scenarioA "March" = Except.ok out ∧
        (out = [] ∨
          (out.length = 4 ∧
            out.map Prod.fst = ["Healthy", "Salmonella", "Newcastle", "Coccidiosis"])) ∧
        ∀ p ∈ out, 0 ≤ p.2 :=
  ⟨by decide, aggregate_shape englishLocale scenarioA "March" (by decide)⟩

/-- C6, as stated, fails in two ways: `Invalid Date` is not a canonical month name, yet a
record whose date string does not parse is aggregated under it; and under the locale `fr-FR`
a March record is aggregated under the non-canonical name `mars`. -/
theorem aggregate_noncanonical_month_nonempty :
    (¬ canonicalMonth "Invalid Date" ∧
      aggregate englishLocale unparsedRecord "Invalid Date" =
        Except.ok [("Healthy", 3), ("Salmonella", 0), ("Newcastle", 0), ("Coccidiosis", 0)]) ∧
    (¬ canonicalMonth "mars" ∧
      aggregate frenchLocale scenarioA "mars" =
        Except.ok [("Healthy", 3), ("Salmonella", 0), ("Newcastle", 0), ("Coccidiosis", 0)]) := by
  decide

/-- C6, amended: for records that all carry a timestamp and a month name that is neither a
long month name of the default locale (the canonical names when that locale is English) nor
the text `Invalid Date`, `aggregate` returns the empty sequence and does not fail. -/
theorem aggregate_unknown_month_empty (loc : Locale) (R : List DocData) (monthName : String)
    (hR : ∀ r ∈ R, hasTimestamp r = true)
    (hM : ¬ localeMonth loc monthName) (hI : monthName ≠ "Invalid Date") :
    aggregate loc R monthName = Except.ok [] := by
  have hno : ∀ r ∈ R, monthNameOf loc r ≠ some monthName := by
    intro r _ h
    rcases monthNameOf_cases loc h with hc | hc
    · exact hM hc
    · exact hI hc
  rw [aggregate_of_hasTimestamp loc R monthName hR]
  have hnil := recordsOfMonth_of_no_record loc hno
  rw [(toChartData_eq_nil_iff (totalsRow loc R monthName)).2 (by
    simp [totalsRow, runningTotal, hnil])]

/-- Witness for the amended C6: `Jan` is not a month name an English locale produces. -/
theorem aggregate_unknown_month_empty_witness :
    (∀ r ∈ scenarioC ++ unparsedRecord, hasTimestamp r = true) ∧
      ¬ localeMonth englishLocale "Jan" ∧ ¬ canonicalMonth "Jan" ∧ "Jan" ≠ "Invalid Date" ∧
      aggregate englishLocale (scenarioC ++ unparsedRecord) "Jan" = Except.ok [] :=
  ⟨by decide, by decide, by decide, by decide,
   aggregate_unknown_month_empty englishLocale (scenarioC ++ unparsedRecord) "Jan"
     (by decide) (by decide) (by decide)⟩

/-! ## Claims about `availableMonths` and the month ordering -/

/-- C4: for every record set and locale, `availableMonths R` contains no duplicate month
name, and ordering it with the comparator of `fetchAvailableMonths` rearranges it into a
sequence that is non-decreasing in calendar position; records spanning only February and
November, in any arrival order, give exactly February, November. -/
theorem availableMonths_nodup_and_ordered (loc : Locale) (R : List DocData)
    (hR : ∀ r ∈ R, hasTimestamp r = true) :
    ∃ ms sorted, availableMonths loc R = Except.ok ms ∧ ms.Nodup ∧
      orderedMonths loc R = Except.ok sorted ∧ List.Perm sorted ms ∧
      sorted.Sorted (fun a b => monthIndex a ≤ monthIndex b) ∧
      (((∀ r ∈ R, monthNameOf loc r = some "February" ∨ monthNameOf loc r = some "November") ∧
          (∃ r ∈ R, monthNameOf loc r = some "February") ∧
          (∃ r ∈ R, monthNameOf loc r = some "November")) →
        sorted = ["February", "November"]) := by
  have hav := availableMonths_of_hasTimestamp loc R hR
  have hnd : ((monthNames loc R).foldl setAdd []).Nodup :=
    nodup_foldl_setAdd (monthNames loc R) [] List.nodup_nil
  refine ⟨(monthNames loc R).foldl setAdd [], sortMonths ((monthNames loc R).foldl setAdd []),
    hav, hnd, ?_, perm_sortMonths _, sorted_sortMonths _, ?_⟩
  · simp [orderedMonths, hav]
  · rintro ⟨hall, ⟨r1, hr1, hfeb⟩, ⟨r2, hr2, hnov⟩⟩
    have hmem : ∀ a, a ∈ (monthNames loc R).foldl setAdd [] ↔
        a ∈ ["February", "November"] := by
      intro a
      rw [mem_listed_iff]
      simp only [List.mem_cons, List.mem_singleton, List.not_mem_nil, or_false]
      constructor
      · rintro ⟨r, hr, hra⟩
        rcases hall r hr with h | h
        · rw [h] at hra; exact Or.inl (Option.some.inj hra).symm
        · rw [h] at hra; exact Or.inr (Option.some.inj hra).symm
      · rintro (h | h)
        · exact ⟨r1, hr1, h ▸ hfeb⟩
        · exact ⟨r2, hr2, h ▸ hnov⟩
    have hperm : List.Perm ((monthNames loc R).foldl setAdd []) ["February", "November"] :=
      (List.perm_ext_iff_of_nodup hnd (by decide)).2 hmem
    have hsub : ∀ x ∈ (monthNames loc R).foldl setAdd [], x ∈ months := by
      intro x hx
      have hx2 := (hmem x).1 hx
      have hin : ∀ y ∈ ["February", "November"], y ∈ months := by decide
      exact hin x hx2
    rw [sortMonths_eq_of_perm hperm hnd
      (fun x hx y hy => monthIndex_injOn x (hsub x hx) y (hsub y hy))]
    decide

/-- Witness for C4 on scenario E: November, February, November arrive and are listed as
February, November. -/
theorem availableMonths_nodup_and_ordered_witness :
    (∀ r ∈ scenarioE, hasTimestamp r = true) ∧
      availableMonths englishLocale scenarioE = Except.ok ["November", "February"] ∧
      orderedMonths englishLocale scenarioE = Except.ok ["February", "November"] ∧
      ∃ ms sorted, availableMonths englishLocale scenarioE = Except.ok ms ∧ ms.Nodup ∧
        orderedMonths englishLocale scenarioE = Except.ok sorted ∧ List.Perm sorted ms ∧
        sorted.Sorted (fun a b => monthIndex a ≤ monthIndex b) ∧
        (((∀ r ∈ scenarioE,
              monthNameOf englishLocale r = some "February" ∨
                monthNameOf englishLocale r = some "November") ∧
            (∃ r ∈ scenarioE, monthNameOf englishLocale r = some "February") ∧
            (∃ r ∈ scenarioE, monthNameOf englishLocale r = some "November")) →
          sorted = ["February", "November"]) :=
  ⟨by decide, by decide, by decide,
   availableMonths_nodup_and_ordered englishLocale scenarioE (by decide)⟩

/-- C5: for every record set, locale and month name `m`, `m` is in `availableMonths R` if
and only if some record of `R` has a timestamp whose derived long month name is `m`; the
counts play no part (records with the same timestamps give the same months), and the empty
record set has no available month. -/
theorem mem_availableMonths_iff (loc : Locale) (R : List DocData)
    (hR : ∀ r ∈ R, hasTimestamp r = true) :
    (∃ ms, availableMonths loc R = Except.ok ms ∧
      ∀ m, m ∈ ms ↔ ∃ r ∈ R, monthNameOf loc r = some m) ∧
    (∀ R2 : List DocData, R2.map DocData.date = R.map DocData.date →
      availableMonths loc R2 = availableMonths loc R) ∧
    availableMonths loc [] = Except.ok [] := by
  refine ⟨⟨_, availableMonths_of_hasTimestamp loc R hR, ?_⟩, ?_, rfl⟩
  · intro m
    exact mem_listed_iff loc R m
  · intro R2 hdates
    have hgen : ∀ (A B : List DocData), A.map DocData.date = B.map DocData.date →
        ∀ acc, collectMonths loc acc A = collectMonths loc acc B := by
      intro A
      induction A with
      | nil =>
        intro B hB acc
        cases B with
        | nil => rfl
        | cons b bs => simp at hB
      | cons a as ih =>
        intro B hB acc
        cases B with
        | nil => simp at hB
        | cons b bs =>
          simp only [List.map_cons, List.cons.injEq] at hB
          rw [collectMonths, collectMonths, hB.1]
          cases resolveDate b.date with
          | error e => rfl
          | ok d => exact ih bs hB.2 _
    exact hgen R2 R hdates []

/-- Witness for C5 on scenario E, whose November records have zero or unrelated counts and
whose February record has no count mapping. -/
theorem mem_availableMonths_iff_witness :
    (∀ r ∈ scenarioE, hasTimestamp r = true) ∧
      ∃ ms, availableMonths englishLocale scenarioE = Except.ok ms ∧
        ∀ m, m ∈ ms ↔ ∃ r ∈ scenarioE, monthNameOf englishLocale r = some m :=
  ⟨by decide, (mem_availableMonths_iff englishLocale scenarioE (by decide)).1⟩

/-! ## Independence of the arrival order -/

theorem categoryTotal_perm (loc : Locale) {R1 R2 : List DocData} (hp : List.Perm R1 R2)
    (M key : String) : categoryTotal loc R1 M key = categoryTotal loc R2 M key := by
  unfold categoryTotal recordsOfMonth
  exact ((hp.filter _).map _).sum_eq

/-- C10, as stated, fails in two ways. Sums beyond `2 ^ 53` depend on the order of addition:
the counts `2 ^ 53`, 1, 1 give `2 ^ 53` and the counts 1, 1, `2 ^ 53` give `2 ^ 53 + 2`. And
under the locale `fr-FR` no derived name is in `months`, so the comparator orders nothing and
the sorted month list keeps the arrival order. -/
theorem results_depend_on_record_order :
    (ValidRecordSet largeFirst ∧ List.Perm largeLast largeFirst ∧
      aggregate englishLocale largeFirst "March" =
        Except.ok [("Healthy", 9007199254740992), ("Salmonella", 0), ("Newcastle", 0),
                   ("Coccidiosis", 0)] ∧
      aggregate englishLocale largeLast "March" =
        Except.ok [("Healthy", 9007199254740994), ("Salmonella", 0), ("Newcastle", 0),
                   ("Coccidiosis", 0)]) ∧
    (ValidRecordSet scenarioE ∧ List.Perm scenarioEPermuted scenarioE ∧
      orderedMonths frenchLocale scenarioE = Except.ok ["novembre", "février"] ∧
      orderedMonths frenchLocale scenarioEPermuted = Except.ok ["février", "novembre"]) := by
  decide

/-- C10, amended: for a record set `R` with valid timestamps and non-negative counts, every
permutation `R1` of `R` and every month `M`: if the four sums of month `M` are at most
`2 ^ 53`, then `aggregate R1 M = aggregate R M`; and if the month names of the default locale
occupy distinct positions of `months` (as the English names do), the calendar-ordered month
lists agree. The unordered output of `availableMonths` can differ between two arrival
orders. -/
theorem results_independent_of_record_order (loc : Locale) (R R1 : List DocData) (M : String)
    (hR : ValidRecordSet R) (hp : List.Perm R1 R) :
    (ExactRange loc R M → aggregate loc R1 M = aggregate loc R M) ∧
    (DistinctPositions loc → orderedMonths loc R1 = orderedMonths loc R) ∧
    (∃ A B : List DocData, ValidRecordSet A ∧ List.Perm B A ∧
      availableMonths englishLocale B ≠ availableMonths englishLocale A) := by
  have hR1 : ValidRecordSet R1 := fun r hr => hR r (hp.mem_iff.1 hr)
  have hts : ∀ r ∈ R, hasTimestamp r = true :=
    hasTimestamp_of_recordSet (recordSet_of_valid hR)
  have hts1 : ∀ r ∈ R1, hasTimestamp r = true :=
    hasTimestamp_of_recordSet (recordSet_of_valid hR1)
  have hnn : ∀ r ∈ R, nonnegCounts r = true := fun r hr => (hR r hr).2
  have hnn1 : ∀ r ∈ R1, nonnegCounts r = true := fun r hr => (hR1 r hr).2
  refine ⟨?_, ?_, scenarioE, scenarioEPermuted, by decide, by decide, by decide⟩
  · intro hb
    have key : ∀ k : String, categoryTotal loc R M k ≤ 2 ^ 53 →
        runningTotal loc R1 M k = runningTotal loc R M k := by
      intro k hk
      rw [runningTotal_eq_categoryTotal loc hnn M k hk,
        runningTotal_eq_categoryTotal loc hnn1 M k (by rw [categoryTotal_perm loc hp]; exact hk),
        categoryTotal_perm loc hp]
    rw [aggregate_of_hasTimestamp loc R1 M hts1, aggregate_of_hasTimestamp loc R M hts]
    simp only [totalsRow, key _ hb.1, key _ hb.2.1, key _ hb.2.2.1, key _ hb.2.2.2]
  · intro hloc
    have hn1 : ((monthNames loc R1).foldl setAdd []).Nodup :=
      nodup_foldl_setAdd (monthNames loc R1) [] List.nodup_nil
    have hn : ((monthNames loc R).foldl setAdd []).Nodup :=
      nodup_foldl_setAdd (monthNames loc R) [] List.nodup_nil
    have hnames : List.Perm (monthNames loc R1) (monthNames loc R) :=
      hp.filterMap (monthNameOf loc)
    have hperm : List.Perm ((monthNames loc R1).foldl setAdd [])
        ((monthNames loc R).foldl setAdd []) := by
      rw [List.perm_ext_iff_of_nodup hn1 hn]
      intro a
      rw [mem_foldl_setAdd, mem_foldl_setAdd, hnames.mem_iff]
    have hnamed : ∀ x ∈ (monthNames loc R1).foldl setAdd [], localeMonth loc x := by
      intro x hx
      obtain ⟨r, hr, hname⟩ := (mem_listed_iff loc R1 x).1 hx
      exact monthNameOf_of_valid loc (hR1 r hr).1 hname
    have hinj : ∀ x ∈ (monthNames loc R1).foldl setAdd [],
        ∀ y ∈ (monthNames loc R1).foldl setAdd [], monthIndex x = monthIndex y → x = y := by
      intro x hx y hy hxy
      obtain ⟨m1, rfl⟩ := hnamed x hx
      obtain ⟨m2, rfl⟩ := hnamed y hy
      exact hloc m1 m2 hxy
    simp only [orderedMonths, availableMonths_of_hasTimestamp loc R1 hts1,
      availableMonths_of_hasTimestamp loc R hts]
    rw [sortMonths_eq_of_perm hperm hn1 hinj]

/-- Witness for the amended C10 on scenario E and a reordering of it, under an English
locale. -/
theorem results_independent_of_record_order_witness :
    ValidRecordSet scenarioE ∧ List.Perm scenarioEPermuted scenarioE ∧
      ExactRange englishLocale scenarioE "November" ∧ DistinctPositions englishLocale ∧
      aggregate englishLocale scenarioEPermuted "November" =
        aggregate englishLocale scenarioE "November" ∧
      orderedMonths englishLocale scenarioEPermuted = orderedMonths englishLocale scenarioE :=
  ⟨by decide, by decide, by decide, by decide,
   (results_independent_of_record_order englishLocale scenarioE scenarioEPermuted "November"
      (by decide) (by decide)).1 (by decide),
   (results_independent_of_record_order englishLocale scenarioE scenarioEPermuted "November"
      (by decide) (by decide)).2.1 (by decide)⟩

/-! ## Malformed timestamps -/

theorem recordsOfMonth_dropMalformed (loc : Locale) (R : List DocData) (M : String)
    (hM : M ≠ "Invalid Date") :
    recordsOfMonth loc (dropMalformed R) M = recordsOfMonth loc R M := by
  unfold recordsOfMonth dropMalformed
  rw [List.filter_filter]
  apply List.filter_congr
  intro r _
  cases r with
  | mk date counts =>
    cases date with
    | absent => simp [monthNameOf, resolveDate]
    | timestamp m => simp [validTimestamp, resolveDate]
    | raw d =>
      cases d with
      | valid m => simp [validTimestamp, resolveDate]
      | invalid =>
        have : ¬ ("Invalid Date" = M) := fun h => hM h.symm
        simp [monthNameOf, resolveDate, toLocaleMonth, validTimestamp, this]

theorem recordsOfMonth_keepMalformed (loc : Locale) (R : List DocData)
    (hloc : ∀ k, loc k ≠ "Invalid Date") :
    recordsOfMonth loc (keepMalformed R) "Invalid Date" =
      recordsOfMonth loc R "Invalid Date" := by
  unfold recordsOfMonth keepMalformed
  rw [List.filter_filter]
  apply List.filter_congr
  intro r _
  cases r with
  | mk date counts =>
    cases date with
    | absent => simp [monthNameOf, resolveDate]
    | timestamp m =>
      simp [monthNameOf, malformedTimestamp, validTimestamp, resolveDate, toLocaleMonth, hloc m]
    | raw d =>
      cases d with
      | valid m =>
        simp [monthNameOf, malformedTimestamp, validTimestamp, resolveDate, toLocaleMonth,
          hloc m]
      | invalid =>
        simp [monthNameOf, resolveDate, toLocaleMonth, malformedTimestamp, validTimestamp]

theorem monthNames_dropMalformed (loc : Locale) (R : List DocData)
    (hloc : ∀ k, loc k ≠ "Invalid Date") :
    monthNames loc (dropMalformed R) =
      (monthNames loc R).filter (fun m => decide (m ≠ "Invalid Date")) := by
  induction R with
  | nil => rfl
  | cons r rest ih =>
    unfold monthNames dropMalformed at ih ⊢
    cases r with
    | mk date counts =>
      cases date with
      | absent =>
        simpa [List.filter_cons, validTimestamp, resolveDate, monthNameOf] using ih
      | timestamp m =>
        simp [List.filter_cons, validTimestamp, resolveDate, monthNameOf, toLocaleMonth,
          hloc m, ih]
      | raw d =>
        cases d with
        | valid m =>
          simp [List.filter_cons, validTimestamp, resolveDate, monthNameOf, toLocaleMonth,
            hloc m, ih]
        | invalid =>
          simpa [List.filter_cons, validTimestamp, resolveDate, monthNameOf, toLocaleMonth]
            using ih

theorem filter_foldl_setAdd (p : String → Bool) (names : List String) :
    ∀ acc : List String,
      (names.foldl setAdd acc).filter p = (names.filter p).foldl setAdd (acc.filter p) := by
  induction names with
  | nil => intro acc; rfl
  | cons x rest ih =>
    intro acc
    rw [List.foldl_cons, ih]
    by_cases hp : p x = true
    · have hstep : (setAdd acc x).filter p = setAdd (acc.filter p) x := by
        unfold setAdd
        by_cases hx : x ∈ acc
        · have hx2 : x ∈ acc.filter p := List.mem_filter.2 ⟨hx, hp⟩
          simp [hx, hx2]
        · have hx2 : x ∉ acc.filter p := fun h => hx (List.mem_filter.1 h).1
          simp [hx, hx2, List.filter_append, List.filter_cons, hp]
      rw [hstep, List.filter_cons, if_pos hp, List.foldl_cons]
    · have hstep : (setAdd acc x).filter p = acc.filter p := by
        unfold setAdd
        by_cases hx : x ∈ acc
        · simp [hx]
        · simp [hx, List.filter_append, List.filter_cons, hp]
      rw [hstep, List.filter_cons, if_neg hp]

theorem hasTimestamp_dropMalformed (R : List DocData) :
    ∀ r ∈ dropMalformed R, hasTimestamp r = true :=
  fun _ hr => hasTimestamp_of_valid (List.mem_filter.1 hr).2

theorem aggregate_congr_recordsOfMonth (loc : Locale) (R1 R2 : List DocData) (M : String)
    (h1 : ∀ r ∈ R1, hasTimestamp r = true) (h2 : ∀ r ∈ R2, hasTimestamp r = true)
    (h : recordsOfMonth loc R1 M = recordsOfMonth loc R2 M) :
    aggregate loc R1 M = aggregate loc R2 M := by
  rw [aggregate_of_hasTimestamp loc R1 M h1, aggregate_of_hasTimestamp loc R2 M h2]
  simp only [totalsRow, runningTotal, h]

/-- C7, as stated, fails: a record without a `date` field aborts both computations; a record
whose date string does not parse is neither skipped by `availableMonths`, which lists the
non-canonical name `Invalid Date` for it, nor by `aggregate` for that month name; and under
the locale `fr-FR` a well-formed March record is listed as `mars`, which is not canonical. -/
theorem malformed_timestamp_not_skipped :
    (malformedTimestamp { date := DateField.absent, detectionsCount := some [("Healthy", 1)] }
        = true ∧
      aggregate englishLocale undatedRecord "March" = Except.error JSError.typeError ∧
      availableMonths englishLocale undatedRecord = Except.error JSError.typeError) ∧
    (dropMalformed unparsedRecord = [] ∧
      availableMonths englishLocale unparsedRecord = Except.ok ["Invalid Date"] ∧
      availableMonths englishLocale (dropMalformed unparsedRecord) = Except.ok [] ∧
      ¬ canonicalMonth "Invalid Date" ∧
      aggregate englishLocale unparsedRecord "Invalid Date" =
        Except.ok [("Healthy", 3), ("Salmonella", 0), ("Newcastle", 0), ("Coccidiosis", 0)] ∧
      aggregate englishLocale (dropMalformed unparsedRecord) "Invalid Date" = Except.ok []) ∧
    (dropMalformed scenarioA = scenarioA ∧
      availableMonths frenchLocale scenarioA = Except.ok ["mars"] ∧
      ¬ canonicalMonth "mars") := by
  decide

/-- C7, amended: on records that all carry a timestamp, one whose timestamp does not parse
to a date is not skipped but filed under the month name `Invalid Date`, a name no locale
gives a month. For every month name other than `Invalid Date`, `aggregate` completes and
equals its value on the records without the malformed ones; for `Invalid Date` it completes
and equals its value on the malformed records alone. `availableMonths` completes and, once
`Invalid Date` is removed, equals its value on the records without the malformed ones; it
lists `Invalid Date` exactly when a malformed record exists, and otherwise only long month
names of the default locale, which are the canonical names when that locale is English. -/
theorem unparsed_timestamp_filed_as_invalid_date (loc : Locale) (R : List DocData)
    (M : String) (hR : ∀ r ∈ R, hasTimestamp r = true)
    (hloc : ∀ k, loc k ≠ "Invalid Date") :
    (M ≠ "Invalid Date" →
      ∃ out, aggregate loc R M = Except.ok out ∧
        aggregate loc (dropMalformed R) M = Except.ok out) ∧
    (∃ out, aggregate loc R "Invalid Date" = Except.ok out ∧
      aggregate loc (keepMalformed R) "Invalid Date" = Except.ok out) ∧
    (∃ ms, availableMonths loc R = Except.ok ms ∧
      availableMonths loc (dropMalformed R) =
        Except.ok (ms.filter (fun m => decide (m ≠ "Invalid Date"))) ∧
      ("Invalid Date" ∈ ms ↔ ∃ r ∈ R, malformedTimestamp r = true) ∧
      (∀ m ∈ ms, localeMonth loc m ∨ m = "Invalid Date") ∧
      (loc = englishLocale → ∀ m ∈ ms, canonicalMonth m ∨ m = "Invalid Date")) := by
  have hkeep : ∀ r ∈ keepMalformed R, hasTimestamp r = true :=
    fun r hr => hR r (List.mem_filter.1 hr).1
  have hcases : ∀ m ∈ (monthNames loc R).foldl setAdd [],
      localeMonth loc m ∨ m = "Invalid Date" := by
    intro m hm
    obtain ⟨r, _, hname⟩ := (mem_listed_iff loc R m).1 hm
    exact monthNameOf_cases loc hname
  refine ⟨?_, ?_, ?_⟩
  · intro hM
    refine ⟨_, aggregate_of_hasTimestamp loc R M hR, ?_⟩
    rw [← aggregate_of_hasTimestamp loc R M hR]
    exact aggregate_congr_recordsOfMonth loc _ _ M (hasTimestamp_dropMalformed R) hR
      (recordsOfMonth_dropMalformed loc R M hM)
  · refine ⟨_, aggregate_of_hasTimestamp loc R "Invalid Date" hR, ?_⟩
    rw [← aggregate_of_hasTimestamp loc R "Invalid Date" hR]
    exact aggregate_congr_recordsOfMonth loc _ _ "Invalid Date" hkeep hR
      (recordsOfMonth_keepMalformed loc R hloc)
  · refine ⟨_, availableMonths_of_hasTimestamp loc R hR, ?_, ?_, hcases, ?_⟩
    · rw [availableMonths_of_hasTimestamp loc (dropMalformed R) (hasTimestamp_dropMalformed R),
        monthNames_dropMalformed loc R hloc, filter_foldl_setAdd]
      rfl
    · rw [mem_listed_iff]
      constructor
      · rintro ⟨r, hr, hname⟩
        refine ⟨r, hr, ?_⟩
        cases r with
        | mk date counts =>
          cases date with
          | absent => simp [monthNameOf, resolveDate] at hname
          | timestamp m =>
            simp only [monthNameOf, resolveDate, toLocaleMonth, Option.some.injEq] at hname
            exact absurd hname (hloc m)
          | raw d =>
            cases d with
            | valid m =>
              simp only [monthNameOf, resolveDate, toLocaleMonth, Option.some.injEq] at hname
              exact absurd hname (hloc m)
            | invalid => rfl
      · rintro ⟨r, hr, hbad⟩
        refine ⟨r, hr, ?_⟩
        have hts := hR r hr
        cases r with
        | mk date counts =>
          cases date with
          | absent => simp [hasTimestamp] at hts
          | timestamp m => simp [malformedTimestamp, validTimestamp, resolveDate] at hbad
          | raw d =>
            cases d with
            | valid m => simp [malformedTimestamp, validTimestamp, resolveDate] at hbad
            | invalid => rfl
    · intro heng m hm
      rcases hcases m hm with h | h
      · left
        rw [heng] at h
        exact (localeMonth_english_iff m).1 h
      · exact Or.inr h

/-- Witness for the amended C7: scenario C followed by a record with an unparsed date, under
an English locale. -/
theorem unparsed_timestamp_filed_as_invalid_date_witness :
    (∀ r ∈ scenarioC ++ unparsedRecord, hasTimestamp r = true) ∧
      (∀ k, englishLocale k ≠ "Invalid Date") ∧ "January" ≠ "Invalid Date" ∧
      availableMonths englishLocale (scenarioC ++ unparsedRecord) =
        Except.ok ["January", "February", "Invalid Date"] ∧
      (∃ out, aggregate englishLocale (scenarioC ++ unparsedRecord) "January" = Except.ok out ∧
        aggregate englishLocale (dropMalformed (scenarioC ++ unparsedRecord)) "January" =
          Except.ok out) ∧
      (∃ out,
        aggregate englishLocale (scenarioC ++ unparsedRecord) "Invalid Date" = Except.ok out ∧
        aggregate englishLocale (keepMalformed (scenarioC ++ unparsedRecord)) "Invalid Date" =
          Except.ok out) :=
  ⟨by decide, by decide, by decide, by decide,
   (unparsed_timestamp_filed_as_invalid_date englishLocale (scenarioC ++ unparsedRecord)
      "January" (by decide) (by decide)).1 (by decide),
   (unparsed_timestamp_filed_as_invalid_date englishLocale (scenarioC ++ unparsedRecord)
      "January" (by decide) (by decide)).2.1⟩

/-! ## The entry points -/

/-- C8: when the session supplies no user identifier (nothing stored under `loggedInUser`, a
stored value that parses to `null`, or a stored user without `UserID` or with an empty one),
`fetchMonthlyData month` and `getAvailableMonths` both return the empty sequence, for every
month, without querying the store and without raising an error. -/
theorem no_user_gives_empty_without_query (env : Env) (month : String)
    (h : env.loggedInUser = none ∨
      (∃ s, env.loggedInUser = some s ∧ s ≠ "" ∧ env.jsonParse s = Except.ok Json.null) ∨
      (∃ s fields, env.loggedInUser = some s ∧ s ≠ "" ∧
        env.jsonParse s = Except.ok (Json.obj fields) ∧
        (fields.lookup "UserID" = none ∨ fields.lookup "UserID" = some (Json.str "")))) :
    (fetchMonthlyData env month).result = Except.ok [] ∧
      (fetchMonthlyData env month).queried = [] ∧
      (getAvailableMonths env).result = Except.ok [] ∧
      (getAvailableMonths env).queried = [] := by
  have key : sessionUserId env = Except.ok none ∨
      sessionUserId env = Except.ok (some (Json.str "")) := by
    rcases h with h | ⟨s, hs, hne, hp⟩ | ⟨s, fields, hs, hne, hp, hu⟩
    · left; simp [sessionUserId, h]
    · left; simp [sessionUserId, hs, hne, hp, userIDOf]
    · rcases hu with hu | hu
      · left; simp [sessionUserId, hs, hne, hp, userIDOf, hu]
      · right; simp [sessionUserId, hs, hne, hp, userIDOf, hu]
  rcases key with k | k
  · simp [fetchMonthlyData, getAvailableMonths, k]
  · simp [fetchMonthlyData, getAvailableMonths, k, truthy]

/-- Witness for C8: the stored item parses to `null`, and the store, which would fail, is
not queried. -/
theorem no_user_gives_empty_without_query_witness :
    (fetchMonthlyData nullUserEnv "March").result = Except.ok [] ∧
      (fetchMonthlyData nullUserEnv "March").queried = [] ∧
      (getAvailableMonths nullUserEnv).result = Except.ok [] ∧
      (getAvailableMonths nullUserEnv).queried = [] :=
  no_user_gives_empty_without_query nullUserEnv "March"
    (Or.inr (Or.inl ⟨"null", rfl, by decide, rfl⟩))

/-- C9, as stated, fails: the session stores the JSON object of user `u1`, which parses to a
user with a non-empty `UserID`; the store query fails, and neither entry point yields an
empty result: both settle with the store's error. -/
theorem store_failure_not_empty :
    failingStoreEnv.jsonParse storedUserText =
        Except.ok (Json.obj [("UserID", Json.str "u1")]) ∧
      sessionUserId failingStoreEnv = Except.ok (some (Json.str "u1")) ∧
      (fetchMonthlyData failingStoreEnv "March").result = Except.error JSError.storeError ∧
      (fetchMonthlyData failingStoreEnv "March").result ≠ Except.ok [] ∧
      (getAvailableMonths failingStoreEnv).result = Except.error JSError.storeError ∧
      (getAvailableMonths failingStoreEnv).result ≠ Except.ok [] :=
  ⟨rfl, rfl, by decide, by decide, by decide, by decide⟩

/-- C9, amended: when the store query for a valid user identifier fails with an error, that
error is what both entry points settle with, for every month: `getAvailableMonths` and
`fetchMonthlyData month` fail with the store's error after a single query. -/
theorem store_failure_propagates (env : Env) (userId : Json) (e : JSError) (month : String)
    (hu : sessionUserId env = Except.ok (some userId)) (ht : truthy userId = true)
    (hq : env.getDocs userId = Except.error e) :
    (fetchMonthlyData env month).result = Except.error e ∧
      (fetchMonthlyData env month).queried = [userId] ∧
      (getAvailableMonths env).result = Except.error e ∧
      (getAvailableMonths env).queried = [userId] := by
  simp [fetchMonthlyData, getAvailableMonths, hu, ht, hq]

/-- Witness for the amended C9 on the session of user `u1` with a failing store. -/
theorem store_failure_propagates_witness :
    sessionUserId failingStoreEnv = Except.ok (some (Json.str "u1")) ∧
      truthy (Json.str "u1") = true ∧
      (fetchMonthlyData failingStoreEnv "March").result = Except.error JSError.storeError ∧
      (getAvailableMonths failingStoreEnv).result = Except.error JSError.storeError :=
  ⟨rfl, by decide,
   (store_failure_propagates failingStoreEnv (Json.str "u1") JSError.storeError "March"
      rfl (by decide) rfl).1,
   (store_failure_propagates failingStoreEnv (Json.str "u1") JSError.storeError "March"
      rfl (by decide) rfl).2.2.1⟩

end DropSight
